import Mathlib

/-!
Verification of the buffering / truncation / retry / flush subsystem of the
fluent-bit GCS output plugin.

The Go source is shallowly embedded:
- byte strings (`[]byte`, `string`) become `List Nat` (one `Nat` per byte);
- `bytes.Buffer` becomes the byte list it holds;
- machine `int` sizes are byte counts, always non-negative at runtime,
  modelled as `Nat` (the constructor's `<= 0` default checks become `= 0`);
- `time.Now()` results (the truncation-metadata timestamp) are passed in as
  explicit parameters;
- the mutexes are dropped: every operation is modelled as a pure function on
  the manager state, matching the code inside the critical sections;
- `encoding/json.Unmarshal(line, &interface{})` succeeding is modelled by the
  executable validator `isValidJSON` below (RFC 7159 value grammar, which is
  what the Go decoder accepts; Go tolerates invalid UTF-8 inside strings, so
  the validator accepts any non-control byte there).
-/

/-- Bytes of an ASCII string (every character below 128 is one byte). -/
def strBytes (s : String) : List Nat :=
  s.data.map Char.toNat

/-- JSON whitespace bytes: space, tab, line feed, carriage return. -/
def isWS (b : Nat) : Bool :=
  b = 32 || b = 9 || b = 10 || b = 13

/-- Drop leading JSON whitespace. -/
def skipWS : List Nat → List Nat
  | [] => []
  | b :: r => if isWS b then skipWS r else b :: r

/-- ASCII decimal digit. -/
def isDigit (b : Nat) : Bool :=
  48 ≤ b && b ≤ 57

/-- ASCII hexadecimal digit. -/
def isHex (b : Nat) : Bool :=
  isDigit b || (97 ≤ b && b ≤ 102) || (65 ≤ b && b ≤ 70)

/-- Consume the remainder of a JSON string literal (the opening quote is
already consumed); returns the input after the closing quote. -/
def parseStringRest : List Nat → Option (List Nat)
  | [] => none
  | 34 :: r => some r
  | 92 :: c :: r =>
    if c = 34 || c = 92 || c = 47 || c = 98 || c = 102 || c = 110 || c = 114 || c = 116 then
      parseStringRest r
    else if c = 117 then
      match r with
      | h1 :: h2 :: h3 :: h4 :: r2 =>
        if isHex h1 && isHex h2 && isHex h3 && isHex h4 then parseStringRest r2 else none
      | _ => none
    else none
  | b :: r => if b < 32 then none else parseStringRest r

/-- Drop a (possibly empty) run of decimal digits. -/
def dropDigits : List Nat → List Nat
  | [] => []
  | b :: r => if isDigit b then dropDigits r else b :: r

/-- Consume an optional exponent part of a JSON number. -/
def parseExpPart : List Nat → Option (List Nat)
  | [] => some []
  | b :: r =>
    if b = 101 || b = 69 then
      match r with
      | [] => none
      | s :: r2 =>
        if s = 43 || s = 45 then
          match r2 with
          | d :: r3 => if isDigit d then some (dropDigits r3) else none
          | [] => none
        else if isDigit s then some (dropDigits r2)
        else none
    else some (b :: r)

/-- Consume an optional fraction part of a JSON number, then the exponent. -/
def parseFracPart : List Nat → Option (List Nat)
  | 46 :: r =>
    (match r with
     | d :: r2 => if isDigit d then parseExpPart (dropDigits r2) else none
     | [] => none)
  | input => parseExpPart input

/-- Consume a JSON number starting at its first digit (an optional leading
minus sign has already been consumed); enforces the no-leading-zero rule. -/
def parseNumberRest : List Nat → Option (List Nat)
  | [] => none
  | b :: r =>
    if b = 48 then parseFracPart r
    else if isDigit b then parseFracPart (dropDigits r)
    else none

mutual

/-- Consume one JSON value (fuel-bounded recursion over nesting). -/
def parseValue : Nat → List Nat → Option (List Nat)
  | 0, _ => none
  | fuel + 1, input =>
    match skipWS input with
    | [] => none
    | 110 :: 117 :: 108 :: 108 :: r => some r
    | 116 :: 114 :: 117 :: 101 :: r => some r
    | 102 :: 97 :: 108 :: 115 :: 101 :: r => some r
    | 34 :: r => parseStringRest r
    | 45 :: r => parseNumberRest r
    | 91 :: r =>
      (match skipWS r with
       | 93 :: r2 => some r2
       | r2 => parseItems fuel r2)
    | 123 :: r =>
      (match skipWS r with
       | 125 :: r2 => some r2
       | r2 => parseMembers fuel r2)
    | b :: r => if isDigit b then parseNumberRest (b :: r) else none

/-- Consume the comma-separated items of a non-empty JSON array, including
the closing bracket. -/
def parseItems : Nat → List Nat → Option (List Nat)
  | 0, _ => none
  | fuel + 1, input =>
    match parseValue fuel input with
    | none => none
    | some rest =>
      match skipWS rest with
      | 44 :: r => parseItems fuel r
      | 93 :: r => some r
      | _ => none

/-- Consume the members of a non-empty JSON object, including the closing
brace. -/
def parseMembers : Nat → List Nat → Option (List Nat)
  | 0, _ => none
  | fuel + 1, input =>
    match skipWS input with
    | 34 :: r =>
      (match parseStringRest r with
       | none => none
       | some afterKey =>
         match skipWS afterKey with
         | 58 :: afterColon =>
           (match parseValue fuel afterColon with
            | none => none
            | some afterVal =>
              match skipWS afterVal with
              | 44 :: r2 => parseMembers fuel r2
              | 125 :: r2 => some r2
              | _ => none)
         | _ => none)
    | _ => none

end

/-- Whether `json.Unmarshal(input, &interface{})` succeeds: one JSON value,
possibly surrounded by whitespace, with nothing after it. -/
def isValidJSON (input : List Nat) : Bool :=
  match parseValue (input.length + 2) input with
  | some rest => (skipWS rest).isEmpty
  | none => false

/-- `bytes.Split(data, []byte("\n"))`: split a byte list on the newline byte
(10). `splitB [] = [[]]`, and a trailing newline yields a trailing `[]`. -/
def splitB : List Nat → List (List Nat)
  | [] => [[]]
  | b :: r =>
    if b = 10 then [] :: splitB r
    else
      match splitB r with
      | [] => [[b]]
      | h :: t => (b :: h) :: t

/-- The buffer-rebuild loop of `truncateByLine`: write each line followed by
one newline byte. -/
def joinLines : List (List Nat) → List Nat
  | [] => []
  | l :: ls => l ++ 10 :: joinLines ls

/-- Cumulative size of a list of lines, counting one delimiter byte per line
(the `lineSize := len(line) + 1` accounting of the retention loop). -/
def linesSize : List (List Nat) → Nat
  | [] => 0
  | l :: ls => l.length + 1 + linesSize ls

/-- `BufferConfig` from `buffer_manager.go`. Byte sizes and seconds are
non-negative at runtime and modelled as `Nat`; the Go constructor's `<= 0`
defaulting becomes `= 0` defaulting. -/
structure BufferConfig where
  MaxBufferSizeBytes : Nat
  FlushTimeoutSec : Nat
  TruncateByLine : Bool
  AddTruncationMeta : Bool
deriving DecidableEq, Repr

/-- `BufferManager` state: the byte buffer, its cached size, and the config.
`lastFlushTime`, the mutex and the overflow callback carry no data the
verified properties depend on and are omitted. -/
structure BufferManager where
  buffer : List Nat
  currentSize : Nat
  config : BufferConfig
deriving DecidableEq, Repr

/-- `NewBufferManager`: apply the minimum-value defaults and start with an
empty buffer. -/
def NewBufferManager (config : BufferConfig) : BufferManager :=
  let config :=
    if config.MaxBufferSizeBytes = 0 then { config with MaxBufferSizeBytes := 4 * 1024 } else config
  let config :=
    if config.FlushTimeoutSec = 0 then { config with FlushTimeoutSec := 60 } else config
  { buffer := [], currentSize := 0, config := config }

/-- The line filter of `truncateByLine`: drop empty lines, keep the lines
that `json.Unmarshal` accepts. -/
def validLinesOf (b : BufferManager) : List (List Nat) :=
  (splitB b.buffer).filter fun line => !line.isEmpty && isValidJSON line

/-- The retention loop of `truncateByLine`, iterating `validLines` from the
newest (last) line to the oldest: state is (retainedLines, totalSize,
droppedLines); a line is kept when it still fits in `targetSize` or when
nothing has been kept yet. -/
def retainLoop (target : Nat) : List (List Nat) → List (List Nat) × Nat × Nat → List (List Nat) × Nat × Nat
  | [], acc => acc
  | line :: rest, (ret, total, dropped) =>
    let lineSize := line.length + 1
    if total + lineSize ≤ target || ret.isEmpty then
      retainLoop target rest (ret ++ [line], total + lineSize, dropped)
    else
      retainLoop target rest (ret, total, dropped + 1)

/-- The lines retained by `truncateByLine`, oldest first: the loop walks the
valid lines newest-first (building `ret` newest-first) and the result is
reversed back into original order. -/
def retainedOf (b : BufferManager) : List (List Nat) :=
  (retainLoop (b.config.MaxBufferSizeBytes / 2) (validLinesOf b).reverse ([], 0, 0)).1.reverse

/-- The `droppedLines` counter of the retention loop. -/
def droppedOf (b : BufferManager) : Nat :=
  (retainLoop (b.config.MaxBufferSizeBytes / 2) (validLinesOf b).reverse ([], 0, 0)).2.2

/-- `json.Marshal` of `TruncationMetadata` (field order as declared in the
struct); the timestamp is `time.Now().Format(time.RFC3339)`, passed in as
bytes (RFC 3339 text never needs JSON string escaping). -/
def marshalTruncationMetadata (ts : List Nat) (dropped retained : Nat) : List Nat :=
  [123] ++ strBytes "\"truncation_event\":true,\"timestamp\":\"" ++ ts
    ++ strBytes "\",\"dropped_lines\":" ++ strBytes (toString dropped)
    ++ strBytes ",\"retained_lines\":" ++ strBytes (toString retained) ++ [125]

/-- `truncateByLine` from `buffer_manager.go`. Note that the three early
branches (`len(data) == 0`, no newline found, no valid JSON line) do not
update `currentSize`; only the rebuild path does, exactly as in the Go
code. -/
def BufferManager.truncateByLine (b : BufferManager) (ts : List Nat) : BufferManager :=
  if b.buffer.length = 0 then b
  else if (splitB b.buffer).length ≤ 1 then { b with buffer := [] }
  else if (validLinesOf b).length = 0 then { b with buffer := [] }
  else
    let retained :=
      if b.config.AddTruncationMeta && decide (0 < droppedOf b) then
        marshalTruncationMetadata ts (droppedOf b) (retainedOf b).length :: retainedOf b
      else retainedOf b
    { b with buffer := joinLines retained, currentSize := (joinLines retained).length }

/-- `AddRecord`: truncate first when the append would exceed the ceiling
(the overflow callback is external and carries no state here), then append
`record ++ "\n"` and refresh `currentSize`. The `ts` parameter stands for
`time.Now()` as observed by a metadata-producing truncation. -/
def BufferManager.AddRecord (b : BufferManager) (record ts : List Nat) : BufferManager :=
  let b :=
    if b.config.MaxBufferSizeBytes < b.buffer.length + record.length + 1 then
      b.truncateByLine ts
    else b
  let buf := b.buffer ++ record ++ [10]
  { b with buffer := buf, currentSize := buf.length }

/-- `BufferManager.Flush`: return a copy of the content (`none` when empty)
and leave the state untouched — the buffer is kept for retry; the returned
pair makes the (absence of) state mutation explicit. -/
def BufferManager.FlushOp (b : BufferManager) : BufferManager × Option (List Nat) :=
  if b.buffer.length = 0 then (b, none) else (b, some b.buffer)

/-- `BufferManager.Reset`: the only operation that clears the content. -/
def BufferManager.Reset (b : BufferManager) : BufferManager :=
  { b with buffer := [], currentSize := 0 }

/-- `Size()` returns the cached `currentSize`. -/
def BufferManager.Size (b : BufferManager) : Nat :=
  b.currentSize

/-- `IsFull()`: the cached size has reached the ceiling. -/
def BufferManager.IsFull (b : BufferManager) : Bool :=
  b.config.MaxBufferSizeBytes ≤ b.currentSize

/-- `hay` starts with `needle` (byte-wise). -/
def beginsWith : List Nat → List Nat → Bool
  | _, [] => true
  | [], _ :: _ => false
  | a :: xs, b :: ys => a = b && beginsWith xs ys

/-- `strings.Contains(hay, needle)` over bytes. -/
def containsSeq (hay needle : List Nat) : Bool :=
  match hay with
  | [] => needle.isEmpty
  | _ :: rest => beginsWith hay needle || containsSeq rest needle

/-- A Go `error` value as classified by `isRetryableError`:
whether `errors.As` finds a transport error whose `Temporary()` is true,
the `googleapi.Error` status code when the error is one, and the
`err.Error()` message bytes. -/
structure GoError where
  temporary : Bool
  gcsCode : Option Nat
  msg : List Nat
deriving DecidableEq, Repr

/-- `isRetryableError` from `retry_manager.go`: temporary errors and
5xx / 429 storage codes retry; permission / auth / credential messages do
not; everything else defaults to retryable. -/
def isRetryableError (e : GoError) : Bool :=
  if e.temporary then true
  else if
    (match e.gcsCode with
     | some code => (500 ≤ code && code < 600) || code = 429
     | none => false) then true
  else if
    containsSeq e.msg (strBytes "permission") || containsSeq e.msg (strBytes "auth")
      || containsSeq e.msg (strBytes "credential") then false
  else true

/-- `RetryManager` state (`retry_manager.go`). The backoff strategy holds no
mutable state and no verified property reads it, so it is omitted; the
counter only ever increments from 0 and is a `Nat`. -/
structure RetryManager where
  retryCount : Nat
  maxRetryCount : Nat
  objectKey : List Nat
  isRetrying : Bool
deriving DecidableEq, Repr

/-- `NewRetryManager`: default `maxRetryCount` to 5 (`<= 0` becomes `= 0`
under the `Nat` model), start idle. -/
def NewRetryManager (maxRetryCount : Nat) : RetryManager :=
  { retryCount := 0
    maxRetryCount := if maxRetryCount = 0 then 5 else maxRetryCount
    objectKey := []
    isRetrying := false }

/-- `ShouldRetry`: `nil` errors and exhausted retry budgets refuse; otherwise
classify the error. -/
def RetryManager.ShouldRetry (r : RetryManager) (e : Option GoError) : Bool :=
  match e with
  | none => false
  | some err =>
    if r.maxRetryCount ≤ r.retryCount then false
    else isRetryableError err

/-- `GetRetryObjectKey`. -/
def RetryManager.GetRetryObjectKey (r : RetryManager) : List Nat :=
  r.objectKey

/-- `SetRetryObjectKey`. -/
def RetryManager.SetRetryObjectKey (r : RetryManager) (key : List Nat) : RetryManager :=
  { r with objectKey := key }

/-- `IncrementRetryCount`: bump the counter and raise the retrying flag. -/
def RetryManager.IncrementRetryCount (r : RetryManager) : RetryManager :=
  { r with retryCount := r.retryCount + 1, isRetrying := true }

/-- `ResetRetry`: clear count, key and flag. -/
def RetryManager.ResetRetry (r : RetryManager) : RetryManager :=
  { r with retryCount := 0, objectKey := [], isRetrying := false }

/-- Metric events fired by the orchestrator, in call order. `RecordWrite`'s
tag / byte-count / latency arguments carry no verified content beyond the
success flag; `RecordError` keeps its kind string. -/
inductive MetricEvent where
  | maxRetriesReached
  | retryAttempt
  | errorEvent (kind : List Nat)
  | writeEvent (success : Bool)
  | compressionRatio
deriving DecidableEq, Repr

/-- `PluginContext` (`plugin_context.go`): the buffer manager, the retry
manager, and the metrics collector modelled as the list of events it has
received. The storage client and config strings enter only through the
per-attempt inputs of `Flush`. -/
structure PluginContext where
  bufferManager : BufferManager
  retryManager : RetryManager
  events : List MetricEvent
deriving DecidableEq, Repr

/-- `ProcessRecord`: append to the buffer only when not retrying; the Go
method's error result is always `nil` (buffer writes cannot fail), returned
here explicitly. -/
def PluginContext.ProcessRecord (p : PluginContext) (record ts : List Nat) :
    PluginContext × Option GoError :=
  if p.retryManager.isRetrying then (p, none)
  else ({ p with bufferManager := p.bufferManager.AddRecord record ts }, none)

/-- The visible outcome of one `PluginContext.Flush` call: the new context,
the returned `(int, error)` pair, and the object key passed to
`storageClient.Write` (`none` when `Write` was not called). -/
structure FlushOutcome where
  ctx : PluginContext
  code : Int
  err : Option GoError
  wroteKey : Option (List Nat)
deriving DecidableEq, Repr

/-- The `errType` classification of a failed write in `Flush`. -/
def classifyErrType (msg : List Nat) : List Nat :=
  if containsSeq msg (strBytes "connection") then strBytes "connection"
  else if containsSeq msg (strBytes "timeout") then strBytes "timeout"
  else if containsSeq msg (strBytes "permission") then strBytes "permission"
  else strBytes "storage"

/-- `PluginContext.Flush` (`plugin_context.go`). Environment inputs made
explicit: `freshKey` is the `generateObjectKey(tag)` result had it been
needed (time / uuid dependent, never empty in Go), and `writeErr` is the
outcome of `storageClient.Write` (`none` = success). Gzip compression of an
in-memory buffer cannot fail, so the compression-error branch is
unreachable and the model proceeds past it, recording the compression-ratio
metric as the code does. -/
def PluginContext.Flush (p : PluginContext) (freshKey : List Nat) (writeErr : Option GoError) :
    FlushOutcome :=
  if p.retryManager.maxRetryCount < p.retryManager.retryCount then
    { ctx := { bufferManager := p.bufferManager.Reset,
               retryManager := p.retryManager.ResetRetry,
               events := p.events ++ [.maxRetriesReached] },
      code := 0, err := none, wroteKey := none }
  else
    match (p.bufferManager.FlushOp).2 with
    | none => { ctx := { p with bufferManager := (p.bufferManager.FlushOp).1 },
                code := 0, err := none, wroteKey := none }
    | some _ =>
      let p1 : PluginContext :=
        { p with bufferManager := (p.bufferManager.FlushOp).1,
                 events := p.events ++ [.compressionRatio] }
      let reuse := p1.retryManager.isRetrying && !p1.retryManager.GetRetryObjectKey.isEmpty
      let objectKey := if reuse then p1.retryManager.GetRetryObjectKey else freshKey
      let p2 := if reuse then p1
                else { p1 with retryManager := p1.retryManager.SetRetryObjectKey freshKey }
      match writeErr with
      | none =>
        { ctx := { bufferManager := p2.bufferManager.Reset,
                   retryManager := p2.retryManager.ResetRetry,
                   events := p2.events ++ [.writeEvent true] },
          code := 0, err := none, wroteKey := some objectKey }
      | some e =>
        let p3 : PluginContext :=
          { p2 with events := p2.events ++ [.errorEvent (classifyErrType e.msg)] }
        if p3.retryManager.ShouldRetry (some e) then
          { ctx := { p3 with
                      retryManager := p3.retryManager.IncrementRetryCount
                      events := p3.events ++ [.retryAttempt, .writeEvent false] }
            code := -1
            err := some e
            wroteKey := some objectKey }
        else
          { ctx := { bufferManager := p3.bufferManager.Reset,
                     retryManager := p3.retryManager.ResetRetry,
                     events := p3.events ++ [.writeEvent false] },
            code := -1, err := some e, wroteKey := some objectKey }

/-- One public `BufferManager` operation, for quantifying over API call
sequences: `addRecord` carries the record bytes and the `time.Now()`
observation of a metadata-producing truncation; `flushOp` and `resetOp`
take no data. -/
inductive BufOp where
  | addRecord (record : List Nat) (ts : List Nat)
  | flushOp
  | resetOp
deriving DecidableEq, Repr

/-- Apply one public operation to the buffer state. -/
def applyOp (b : BufferManager) : BufOp → BufferManager
  | .addRecord record ts => b.AddRecord record ts
  | .flushOp => (b.FlushOp).1
  | .resetOp => b.Reset

/-- Apply a sequence of public operations, oldest first. -/
def applyOps (b : BufferManager) (ops : List BufOp) : BufferManager :=
  ops.foldl applyOp b

/-- Apply a sequence of `AddRecord` calls; each pair is (record, timestamp). -/
def runAddRecords (b : BufferManager) (rs : List (List Nat × List Nat)) : BufferManager :=
  rs.foldl (fun b p => b.AddRecord p.1 p.2) b

/-- Per-attempt environment input of one orchestrated flush: the fresh
object key `generateObjectKey` would produce, and the storage `Write`
outcome. -/
structure FlushInput where
  freshKey : List Nat
  writeErr : Option GoError
deriving DecidableEq, Repr

/-- Object keys passed to `storageClient.Write` over a run of flush
attempts, cut off at the end of the current retry cycle (the first attempt
after which `isRetrying` is false). `none` records an attempt that did not
reach `Write`. -/
def cycleWrites (p : PluginContext) : List FlushInput → List (Option (List Nat))
  | [] => []
  | i :: rest =>
    let r := p.Flush i.freshKey i.writeErr
    if r.ctx.retryManager.isRetrying then r.wroteKey :: cycleWrites r.ctx rest
    else [r.wroteKey]

/-- `GetRetryObjectKey()` results observed after each attempt that is still
inside the current retry cycle. -/
def cycleKeys (p : PluginContext) : List FlushInput → List (List Nat)
  | [] => []
  | i :: rest =>
    let r := p.Flush i.freshKey i.writeErr
    if r.ctx.retryManager.isRetrying then
      r.ctx.retryManager.GetRetryObjectKey :: cycleKeys r.ctx rest
    else []

/-- Inductive size invariant for the amended bound property: the cached size
is the buffer length, the buffer is within the ceiling, and the buffer is a
newline-joined list of newline-free lines whose non-empty lines each fit in
half the ceiling. -/
def SizeInv (b : BufferManager) : Prop :=
  b.currentSize = b.buffer.length ∧
  b.buffer.length ≤ b.config.MaxBufferSizeBytes ∧
  ∃ ls, b.buffer = joinLines ls ∧ ∀ l ∈ ls, (10 : Nat) ∉ l ∧
    (l ≠ [] → l.length + 1 ≤ b.config.MaxBufferSizeBytes / 2)

/-- Inductive integrity invariant for the amended JSON-lines property: the
buffer is a newline-joined list of newline-free lines, each valid JSON. -/
def ValidInv (b : BufferManager) : Prop :=
  ∃ ls, b.buffer = joinLines ls ∧ ∀ l ∈ ls, (10 : Nat) ∉ l ∧ isValidJSON l = true

/-- A 4-byte ceiling, metadata disabled (test fixture). -/
def cfg4 : BufferConfig :=
  { MaxBufferSizeBytes := 4, FlushTimeoutSec := 60, TruncateByLine := true,
    AddTruncationMeta := false }

/-- An 8-byte ceiling, metadata disabled (test fixture). -/
def cfg8 : BufferConfig :=
  { MaxBufferSizeBytes := 8, FlushTimeoutSec := 60, TruncateByLine := true,
    AddTruncationMeta := false }

/-- A 20-byte ceiling, metadata disabled (test fixture). -/
def cfg20 : BufferConfig :=
  { MaxBufferSizeBytes := 20, FlushTimeoutSec := 60, TruncateByLine := true,
    AddTruncationMeta := false }

/-- A 1024-byte ceiling, metadata disabled (test fixture). -/
def cfg1024 : BufferConfig :=
  { MaxBufferSizeBytes := 1024, FlushTimeoutSec := 60, TruncateByLine := true,
    AddTruncationMeta := false }

/-- Buffer seeded with three one-per-line decimal JSON values
`1`, `12345678`, `22` under a 20-byte ceiling (truncation target 10). -/
def bLines3 : BufferManager :=
  { buffer := strBytes "1\n12345678\n22\n", currentSize := 14, config := cfg20 }

/-- Buffer seeded with two tiny JSON lines `5` and `6` under a 20-byte
ceiling. -/
def bLines2 : BufferManager :=
  { buffer := strBytes "5\n6\n", currentSize := 4, config := cfg20 }

/-- Scenario-B buffer: a valid line, a malformed line, a valid line. -/
def bSeeded : BufferManager :=
  { buffer := strBytes "\x7b\"a\":1\x7d\n\x7b\"b\":2\n\x7b\"c\":3\x7d\n",
    currentSize := 24, config := cfg1024 }

/-- A permission-class storage error (test fixture). -/
def permErr : GoError :=
  { temporary := false, gcsCode := none, msg := strBytes "permission denied" }

/-- A 503-class retryable storage error (test fixture). -/
def err503 : GoError :=
  { temporary := false, gcsCode := some 503, msg := strBytes "backend error" }

/-- A plugin context mid retry-cycle: one failed attempt recorded, a pinned
object key, and a non-empty buffer (test fixture). -/
def pRetrying : PluginContext :=
  { bufferManager := { buffer := strBytes "\x7b\x7d\n", currentSize := 3, config := cfg1024 }
    retryManager := { retryCount := 1, maxRetryCount := 3, objectKey := strBytes "logs/k1.log.gz",
                      isRetrying := true }
    events := [] }

/-- A plugin context whose retry budget is exhausted (test fixture). -/
def pExhausted : PluginContext :=
  { bufferManager := { buffer := strBytes "\x7b\x7d\n", currentSize := 3, config := cfg1024 }
    retryManager := { retryCount := 4, maxRetryCount := 3, objectKey := strBytes "logs/k2.log.gz",
                      isRetrying := true }
    events := [] }

/-- An idle plugin context with a non-empty buffer (test fixture). -/
def pIdle : PluginContext :=
  { bufferManager := { buffer := strBytes "\x7b\x7d\n", currentSize := 3, config := cfg1024 }
    retryManager := { retryCount := 0, maxRetryCount := 3, objectKey := [], isRetrying := false }
    events := [] }

/-- Shape of the `time.Now().Format(time.RFC3339)` output observed by a
metadata-producing truncation: printable bytes with no quote and no
backslash, so `json.Marshal` embeds it into the metadata string verbatim. -/
def tsSafe (ts : List Nat) : Prop :=
  ∀ b ∈ ts, 32 ≤ b ∧ b ≠ 34 ∧ b ≠ 92

instance : DecidablePred tsSafe := fun ts =>
  inferInstanceAs (Decidable (∀ b ∈ ts, 32 ≤ b ∧ b ≠ 34 ∧ b ≠ 92))

/-- Record discipline used by the amended integrity claim: an `addRecord`
operation carries a record that is itself valid JSON and contains no raw
newline byte, and the truncation timestamp it may observe is RFC 3339
shaped; other operations are unconstrained. -/
def opRecordOK : BufOp → Prop
  | .addRecord record ts => isValidJSON record = true ∧ (10 : Nat) ∉ record ∧ tsSafe ts
  | .flushOp => True
  | .resetOp => True

instance : DecidablePred opRecordOK := fun op => by
  cases op with
  | addRecord record ts =>
    exact inferInstanceAs
      (Decidable (isValidJSON record = true ∧ (10 : Nat) ∉ record ∧ tsSafe ts))
  | flushOp => exact inferInstanceAs (Decidable True)
  | resetOp => exact inferInstanceAs (Decidable True)

/-- Shape of a decimal integer rendering: non-empty, all ASCII digits, and
a leading `0` only for the single-digit string `0` — what `json.Marshal`
emits for the metadata counters. -/
def decOK (l : List Nat) : Prop :=
  l ≠ [] ∧ (∀ b ∈ l, 48 ≤ b ∧ b ≤ 57) ∧ (l.head? = some 48 → l = [48])

/-- Continuation of the object-member loop after a member value: a comma
continues with the next member, a closing brace ends the object. Named so
that the metadata-line parse can be stated attempt by attempt; it is the
continuation `parseMembers` itself computes. -/
def memberCont (g : Nat) (x : Option (List Nat)) : Option (List Nat) :=
  match x with
  | none => none
  | some afterVal =>
    match skipWS afterVal with
    | 44 :: r2 => parseMembers g r2
    | 125 :: r2 => some r2
    | _ => none

theorem splitB_ne_nil (l : List Nat) : splitB l ≠ [] := by
  induction l with
  | nil => simp [splitB]
  | cons b r ih =>
    simp only [splitB]
    split
    · simp
    · split
      · simp
      · simp

theorem noNL_of_mem_splitB {l p : List Nat} (h : p ∈ splitB l) : (10 : Nat) ∉ p := by
  induction l generalizing p with
  | nil =>
    simp [splitB] at h
    simp [h]
  | cons b r ih =>
    simp only [splitB] at h
    by_cases hb : b = 10
    · rw [if_pos hb] at h
      rcases List.mem_cons.mp h with h | h
      · simp [h]
      · exact ih h
    · rw [if_neg hb] at h
      rcases hsp : splitB r with _ | ⟨hd, tl⟩
      · exact absurd hsp (splitB_ne_nil r)
      · rw [hsp] at h
        rcases List.mem_cons.mp h with h | h
        · subst h
          have hhd : (10 : Nat) ∉ hd := ih (by rw [hsp]; exact List.mem_cons_self _ _)
          simp [hb, hhd]
          omega
        · exact ih (by rw [hsp]; exact List.mem_cons_of_mem _ h)

theorem length_le_of_mem_splitB {l p : List Nat} (h : p ∈ splitB l) : p.length ≤ l.length := by
  induction l generalizing p with
  | nil =>
    simp [splitB] at h
    simp [h]
  | cons b r ih =>
    simp only [splitB] at h
    by_cases hb : b = 10
    · rw [if_pos hb] at h
      rcases List.mem_cons.mp h with h | h
      · simp [h]
      · exact le_trans (ih h) (by simp)
    · rw [if_neg hb] at h
      rcases hsp : splitB r with _ | ⟨hd, tl⟩
      · exact absurd hsp (splitB_ne_nil r)
      · rw [hsp] at h
        rcases List.mem_cons.mp h with h | h
        · subst h
          have : hd.length ≤ r.length := ih (by rw [hsp]; exact List.mem_cons_self _ _)
          simp
          omega
        · exact le_trans (ih (by rw [hsp]; exact List.mem_cons_of_mem _ h)) (by simp)

theorem joinLines_splitB (l : List Nat) : joinLines (splitB l) = l ++ [10] := by
  induction l with
  | nil => simp [splitB, joinLines]
  | cons b r ih =>
    simp only [splitB]
    by_cases hb : b = 10
    · rw [if_pos hb, hb]
      simp [joinLines, ih]
    · rw [if_neg hb]
      rcases hsp : splitB r with _ | ⟨hd, tl⟩
      · exact absurd hsp (splitB_ne_nil r)
      · rw [hsp] at ih
        simp only [joinLines] at ih ⊢
        simp [ih]

theorem splitB_append_noNL {l : List Nat} (ys : List Nat) (h : (10 : Nat) ∉ l) :
    splitB (l ++ 10 :: ys) = l :: splitB ys := by
  induction l with
  | nil => simp [splitB]
  | cons b r ih =>
    have hb : b ≠ 10 := by
      intro hb
      exact h (by simp [hb])
    have hr : (10 : Nat) ∉ r := fun hm => h (List.mem_cons_of_mem _ hm)
    simp only [List.cons_append, splitB, if_neg hb]
    rw [show List.append r (10 :: ys) = r ++ 10 :: ys from rfl, ih hr]

theorem splitB_joinLines_append (ls : List (List Nat)) (rest : List Nat)
    (h : ∀ l ∈ ls, (10 : Nat) ∉ l) :
    splitB (joinLines ls ++ rest) = ls ++ splitB rest := by
  induction ls with
  | nil => simp [joinLines]
  | cons l ls ih =>
    have hl : (10 : Nat) ∉ l := h l (List.mem_cons_self _ _)
    have hls : ∀ x ∈ ls, (10 : Nat) ∉ x := fun x hx => h x (List.mem_cons_of_mem _ hx)
    simp only [joinLines, List.cons_append, List.append_assoc]
    rw [splitB_append_noNL _ hl, ih hls]

theorem splitB_joinLines (ls : List (List Nat)) (h : ∀ l ∈ ls, (10 : Nat) ∉ l) :
    splitB (joinLines ls) = ls ++ [[]] := by
  have := splitB_joinLines_append ls [] h
  simpa [splitB] using this

theorem joinLines_length (ls : List (List Nat)) : (joinLines ls).length = linesSize ls := by
  induction ls with
  | nil => simp [joinLines, linesSize]
  | cons l ls ih => simp [joinLines, linesSize, ih]; omega

theorem joinLines_append (a c : List (List Nat)) :
    joinLines (a ++ c) = joinLines a ++ joinLines c := by
  induction a with
  | nil => simp [joinLines]
  | cons l ls ih => simp [joinLines, ih]

theorem splitB_noNL {r : List Nat} (h : (10 : Nat) ∉ r) : splitB r = [r] := by
  induction r with
  | nil => simp [splitB]
  | cons b rest ih =>
    have hb : b ≠ 10 := by
      intro hb
      exact h (by simp [hb])
    have hr : (10 : Nat) ∉ rest := fun hm => h (List.mem_cons_of_mem _ hm)
    simp only [splitB, if_neg hb, ih hr]

theorem linesSize_append (a c : List (List Nat)) :
    linesSize (a ++ c) = linesSize a + linesSize c := by
  induction a with
  | nil => simp [linesSize]
  | cons l ls ih => simp [linesSize, ih]; omega

theorem linesSize_reverse (a : List (List Nat)) : linesSize a.reverse = linesSize a := by
  induction a with
  | nil => rfl
  | cons l ls ih => simp [linesSize, List.reverse_cons, linesSize_append, ih]; omega

theorem retainLoop_fst_ext (t : Nat) (input : List (List Nat)) :
    ∀ ret total d, ∃ kept,
      (retainLoop t input (ret, total, d)).1 = ret ++ kept ∧ List.Sublist kept input := by
  induction input with
  | nil =>
    intro ret total d
    exact ⟨[], by simp [retainLoop], List.nil_sublist _⟩
  | cons line rest ih =>
    intro ret total d
    simp only [retainLoop]
    split
    · obtain ⟨kept, hk, hs⟩ := ih (ret ++ [line]) (total + (line.length + 1)) d
      exact ⟨line :: kept, by simp [hk], List.cons_sublist_cons.mpr hs⟩
    · obtain ⟨kept, hk, hs⟩ := ih ret total (d + 1)
      exact ⟨kept, hk, hs.cons line⟩

theorem retainLoop_fst_ne_nil (t : Nat) (input : List (List Nat)) :
    ∀ ret total d, ret ≠ [] ∨ input ≠ [] →
      (retainLoop t input (ret, total, d)).1 ≠ [] := by
  intro ret total d h
  cases input with
  | nil =>
    simp only [retainLoop]
    rcases h with h | h
    · exact h
    · exact absurd rfl h
  | cons line rest =>
    simp only [retainLoop]
    split
    · obtain ⟨kept, hk, _⟩ := retainLoop_fst_ext t rest (ret ++ [line]) (total + (line.length + 1)) d
      rw [hk]
      simp
    · next hcond =>
      have hret : ret ≠ [] := by
        simp only [Bool.or_eq_true, decide_eq_true_eq, List.isEmpty_iff] at hcond
        push_neg at hcond
        exact hcond.2
      obtain ⟨kept, hk, _⟩ := retainLoop_fst_ext t rest ret total (d + 1)
      rw [hk]
      simp [hret]

theorem retainLoop_total_eq (t : Nat) (input : List (List Nat)) :
    ∀ ret total d, total = linesSize ret →
      (retainLoop t input (ret, total, d)).2.1 = linesSize (retainLoop t input (ret, total, d)).1 := by
  induction input with
  | nil =>
    intro ret total d h
    simpa [retainLoop] using h
  | cons line rest ih =>
    intro ret total d h
    simp only [retainLoop]
    split
    · exact ih (ret ++ [line]) (total + (line.length + 1)) d
        (by rw [h, linesSize_append]; simp [linesSize])
    · exact ih ret total (d + 1) h

theorem retainLoop_total_le (t : Nat) (input : List (List Nat)) :
    ∀ ret total d, (∀ l ∈ input, l.length + 1 ≤ t) → total ≤ t → (ret = [] → total = 0) →
      (retainLoop t input (ret, total, d)).2.1 ≤ t := by
  induction input with
  | nil =>
    intro ret total d _ htot _
    simpa [retainLoop] using htot
  | cons line rest ih =>
    intro ret total d hin htot hemp
    have hline : line.length + 1 ≤ t := hin line (List.mem_cons_self _ _)
    have hin2 : ∀ l ∈ rest, l.length + 1 ≤ t := fun l hl => hin l (List.mem_cons_of_mem _ hl)
    simp only [retainLoop]
    split
    · next hcond =>
      simp only [Bool.or_eq_true, decide_eq_true_eq, List.isEmpty_iff] at hcond
      rcases hcond with hcond | hcond
      · exact ih (ret ++ [line]) (total + (line.length + 1)) d hin2 hcond (by simp)
      · have : total = 0 := hemp hcond
        exact ih (ret ++ [line]) (total + (line.length + 1)) d hin2 (by omega) (by simp)
    · exact ih ret total (d + 1) hin2 htot hemp

theorem retainLoop_le_or_one (t : Nat) (input : List (List Nat)) :
    ∀ ret total d, (total ≤ t ∨ ret.length = 1) →
      (retainLoop t input (ret, total, d)).2.1 ≤ t ∨ (retainLoop t input (ret, total, d)).1.length = 1 := by
  induction input with
  | nil =>
    intro ret total d h
    simpa [retainLoop] using h
  | cons line rest ih =>
    intro ret total d h
    simp only [retainLoop]
    split
    · next hcond =>
      simp only [Bool.or_eq_true, decide_eq_true_eq, List.isEmpty_iff] at hcond
      by_cases hle : total + (line.length + 1) ≤ t
      · exact ih (ret ++ [line]) (total + (line.length + 1)) d (Or.inl hle)
      · have hret : ret = [] := by tauto
        exact ih (ret ++ [line]) (total + (line.length + 1)) d (Or.inr (by simp [hret]))
    · exact ih ret total (d + 1) h

theorem validLinesOf_spec {b : BufferManager} {l : List Nat} (h : l ∈ validLinesOf b) :
    l ∈ splitB b.buffer ∧ l ≠ [] ∧ isValidJSON l = true := by
  unfold validLinesOf at h
  rw [List.mem_filter] at h
  obtain ⟨h1, h2⟩ := h
  simp only [Bool.and_eq_true, Bool.not_eq_true', List.isEmpty_eq_false] at h2
  exact ⟨h1, h2.1, h2.2⟩

theorem retainedOf_sublist (b : BufferManager) :
    List.Sublist (retainedOf b) (validLinesOf b) := by
  obtain ⟨kept, hk, hs⟩ :=
    retainLoop_fst_ext (b.config.MaxBufferSizeBytes / 2) (validLinesOf b).reverse [] 0 0
  unfold retainedOf
  rw [hk]
  simpa using List.reverse_sublist.mpr hs

theorem mem_retainedOf {b : BufferManager} {l : List Nat} (h : l ∈ retainedOf b) :
    l ∈ validLinesOf b :=
  (retainedOf_sublist b).subset h

theorem retainedOf_ne_nil (b : BufferManager) (h : validLinesOf b ≠ []) :
    retainedOf b ≠ [] := by
  unfold retainedOf
  simp only [ne_eq, List.reverse_eq_nil_iff]
  apply retainLoop_fst_ne_nil
  right
  simpa using h

theorem retainedOf_size_le (b : BufferManager)
    (h : ∀ l ∈ validLinesOf b, l.length + 1 ≤ b.config.MaxBufferSizeBytes / 2) :
    linesSize (retainedOf b) ≤ b.config.MaxBufferSizeBytes / 2 := by
  have htot := retainLoop_total_le (b.config.MaxBufferSizeBytes / 2) (validLinesOf b).reverse
    [] 0 0 (fun l hl => h l (List.mem_reverse.mp hl)) (Nat.zero_le _) (fun _ => rfl)
  have heq := retainLoop_total_eq (b.config.MaxBufferSizeBytes / 2) (validLinesOf b).reverse
    [] 0 0 rfl
  unfold retainedOf
  rw [linesSize_reverse, ← heq]
  exact htot

theorem retainedOf_size_or_one (b : BufferManager) :
    linesSize (retainedOf b) ≤ b.config.MaxBufferSizeBytes / 2 ∨ (retainedOf b).length = 1 := by
  have h := retainLoop_le_or_one (b.config.MaxBufferSizeBytes / 2) (validLinesOf b).reverse
    [] 0 0 (Or.inl (Nat.zero_le _))
  have heq := retainLoop_total_eq (b.config.MaxBufferSizeBytes / 2) (validLinesOf b).reverse
    [] 0 0 rfl
  unfold retainedOf
  rw [linesSize_reverse, List.length_reverse, ← heq]
  exact h

theorem truncateByLine_main (b : BufferManager) (ts : List Nat)
    (hmeta : b.config.AddTruncationMeta = false)
    (hlines : 1 < (splitB b.buffer).length) (hvalid : validLinesOf b ≠ []) :
    b.truncateByLine ts =
      { b with buffer := joinLines (retainedOf b),
               currentSize := (joinLines (retainedOf b)).length } := by
  have hne : ¬ b.buffer.length = 0 := by
    intro h
    rw [List.length_eq_zero] at h
    rw [h] at hlines
    simp [splitB] at hlines
  have h2 : ¬ (splitB b.buffer).length ≤ 1 := by omega
  have h3 : ¬ (validLinesOf b).length = 0 := by
    simpa [List.length_eq_zero] using hvalid
  unfold BufferManager.truncateByLine
  rw [if_neg hne, if_neg h2, if_neg h3]
  simp [hmeta]

theorem truncateByLine_buffer_cases (b : BufferManager) (ts : List Nat) :
    (b.truncateByLine ts).buffer = [] ∨
      (1 < (splitB b.buffer).length ∧ validLinesOf b ≠ []) := by
  by_cases h1 : b.buffer.length = 0
  · left
    unfold BufferManager.truncateByLine
    rw [if_pos h1]
    exact List.length_eq_zero.mp h1
  by_cases h2 : (splitB b.buffer).length ≤ 1
  · left
    unfold BufferManager.truncateByLine
    rw [if_neg h1, if_pos h2]
  by_cases h3 : (validLinesOf b).length = 0
  · left
    unfold BufferManager.truncateByLine
    rw [if_neg h1, if_neg h2, if_pos h3]
  · right
    refine ⟨by omega, fun he => h3 (by simp [he])⟩

theorem truncateByLine_config (b : BufferManager) (ts : List Nat) :
    (b.truncateByLine ts).config = b.config := by
  unfold BufferManager.truncateByLine
  split
  · rfl
  split
  · rfl
  split
  · rfl
  · rfl

theorem AddRecord_config (b : BufferManager) (record ts : List Nat) :
    (b.AddRecord record ts).config = b.config := by
  unfold BufferManager.AddRecord
  split
  · exact truncateByLine_config b ts
  · rfl

theorem FlushOp_fst (b : BufferManager) : (b.FlushOp).1 = b := by
  unfold BufferManager.FlushOp
  split
  · rfl
  · rfl

theorem truncate_valid (b : BufferManager) (ts : List Nat)
    (hmeta : b.config.AddTruncationMeta = false) :
    ∃ ls, (b.truncateByLine ts).buffer = joinLines ls ∧
      ∀ l ∈ ls, (10 : Nat) ∉ l ∧ isValidJSON l = true := by
  rcases truncateByLine_buffer_cases b ts with h | ⟨hlines, hvalid⟩
  · exact ⟨[], by simpa [joinLines] using h, by simp⟩
  · rw [truncateByLine_main b ts hmeta hlines hvalid]
    refine ⟨retainedOf b, rfl, ?_⟩
    intro l hl
    have hv := validLinesOf_spec (mem_retainedOf hl)
    exact ⟨noNL_of_mem_splitB hv.1, hv.2.2⟩

theorem truncate_shrink (b : BufferManager) (ts : List Nat)
    (hmeta : b.config.AddTruncationMeta = false)
    (hall : ∀ l ∈ splitB b.buffer, l ≠ [] → l.length + 1 ≤ b.config.MaxBufferSizeBytes / 2) :
    ∃ ls, (b.truncateByLine ts).buffer = joinLines ls ∧
      (∀ l ∈ ls, l ∈ validLinesOf b) ∧
      (b.truncateByLine ts).buffer.length ≤ b.config.MaxBufferSizeBytes / 2 := by
  rcases truncateByLine_buffer_cases b ts with h | ⟨hlines, hvalid⟩
  · refine ⟨[], by simpa [joinLines] using h, by simp, ?_⟩
    rw [h]
    simp
  · rw [truncateByLine_main b ts hmeta hlines hvalid]
    refine ⟨retainedOf b, rfl, fun l hl => mem_retainedOf hl, ?_⟩
    have hsz : ∀ l ∈ validLinesOf b, l.length + 1 ≤ b.config.MaxBufferSizeBytes / 2 := by
      intro l hl
      have hv := validLinesOf_spec hl
      exact hall l hv.1 hv.2.1
    calc (joinLines (retainedOf b)).length
        = linesSize (retainedOf b) := joinLines_length _
      _ ≤ b.config.MaxBufferSizeBytes / 2 := retainedOf_size_le b hsz

theorem NewBufferManager_buffer (cfg : BufferConfig) : (NewBufferManager cfg).buffer = [] := by
  unfold NewBufferManager
  rfl

theorem NewBufferManager_currentSize (cfg : BufferConfig) :
    (NewBufferManager cfg).currentSize = 0 := by
  unfold NewBufferManager
  rfl

theorem NewBufferManager_meta (cfg : BufferConfig) :
    (NewBufferManager cfg).config.AddTruncationMeta = cfg.AddTruncationMeta := by
  unfold NewBufferManager
  by_cases h1 : cfg.MaxBufferSizeBytes = 0 <;> by_cases h2 : cfg.FlushTimeoutSec = 0 <;>
    simp [h1, h2]

theorem applyOp_config (b : BufferManager) (op : BufOp) : (applyOp b op).config = b.config := by
  cases op with
  | addRecord record ts => exact AddRecord_config b record ts
  | flushOp => rw [applyOp, FlushOp_fst]
  | resetOp => rfl

theorem applyOps_config (ops : List BufOp) :
    ∀ b : BufferManager, (applyOps b ops).config = b.config := by
  induction ops with
  | nil => intro b; rfl
  | cons op ops ih =>
    intro b
    show (applyOps (applyOp b op) ops).config = b.config
    rw [ih, applyOp_config]

theorem runAddRecords_config (rs : List (List Nat × List Nat)) :
    ∀ b : BufferManager, (runAddRecords b rs).config = b.config := by
  induction rs with
  | nil => intro b; rfl
  | cons p rs ih =>
    intro b
    show (runAddRecords (b.AddRecord p.1 p.2) rs).config = b.config
    rw [ih, AddRecord_config]

theorem AddRecord_SizeInv (b : BufferManager) (record ts : List Nat)
    (hmeta : b.config.AddTruncationMeta = false)
    (hrec : record.length + 1 ≤ b.config.MaxBufferSizeBytes / 2)
    (h : SizeInv b) : SizeInv (b.AddRecord record ts) := by
  obtain ⟨hcur, hlen, ls, hrep, hls⟩ := h
  have key : (∃ ls1,
      (if b.config.MaxBufferSizeBytes < b.buffer.length + record.length + 1 then
          b.truncateByLine ts else b).buffer = joinLines ls1 ∧
        ∀ l ∈ ls1, (10 : Nat) ∉ l ∧
          (l ≠ [] → l.length + 1 ≤ b.config.MaxBufferSizeBytes / 2)) ∧
      (if b.config.MaxBufferSizeBytes < b.buffer.length + record.length + 1 then
          b.truncateByLine ts else b).buffer.length + record.length + 1 ≤
        b.config.MaxBufferSizeBytes := by
    split
    · have hall : ∀ l ∈ splitB b.buffer, l ≠ [] →
          l.length + 1 ≤ b.config.MaxBufferSizeBytes / 2 := by
        intro l hl hne
        rw [hrep, splitB_joinLines ls (fun x hx => (hls x hx).1)] at hl
        rcases List.mem_append.mp hl with hl | hl
        · exact (hls l hl).2 hne
        · simp at hl
          exact absurd hl hne
      obtain ⟨ls1, he, hmem, hlen1⟩ := truncate_shrink b ts hmeta hall
      refine ⟨⟨ls1, he, ?_⟩, by omega⟩
      intro l hl
      have hv := validLinesOf_spec (hmem l hl)
      exact ⟨noNL_of_mem_splitB hv.1, fun _ => hall l hv.1 hv.2.1⟩
    · next hcond =>
      exact ⟨⟨ls, hrep, hls⟩, by omega⟩
  obtain ⟨⟨ls1, he1, hls1⟩, hbound⟩ := key
  have hb1config :
      (if b.config.MaxBufferSizeBytes < b.buffer.length + record.length + 1 then
          b.truncateByLine ts else b).config = b.config := by
    split
    · exact truncateByLine_config b ts
    · rfl
  unfold BufferManager.AddRecord
  refine ⟨rfl, ?_, ⟨ls1 ++ splitB record, ?_, ?_⟩⟩
  · show ((if b.config.MaxBufferSizeBytes < b.buffer.length + record.length + 1 then
        b.truncateByLine ts else b).buffer ++ record ++ [10]).length ≤
      (if b.config.MaxBufferSizeBytes < b.buffer.length + record.length + 1 then
        b.truncateByLine ts else b).config.MaxBufferSizeBytes
    rw [hb1config]
    simp only [List.length_append, List.length_cons, List.length_nil]
    omega
  · show (if b.config.MaxBufferSizeBytes < b.buffer.length + record.length + 1 then
        b.truncateByLine ts else b).buffer ++ record ++ [10] =
      joinLines (ls1 ++ splitB record)
    rw [joinLines_append, joinLines_splitB, he1, List.append_assoc]
  · intro l hl
    show (10 : Nat) ∉ l ∧ (l ≠ [] → l.length + 1 ≤
      (if b.config.MaxBufferSizeBytes < b.buffer.length + record.length + 1 then
        b.truncateByLine ts else b).config.MaxBufferSizeBytes / 2)
    rw [hb1config]
    rcases List.mem_append.mp hl with hl | hl
    · exact hls1 l hl
    · refine ⟨noNL_of_mem_splitB hl, fun _ => ?_⟩
      have := length_le_of_mem_splitB hl
      omega

theorem skipWS_notWS {b : Nat} (l : List Nat) (h : isWS b = false) :
    skipWS (b :: l) = b :: l := by
  simp [skipWS, h]

theorem parseStringRest_safe {l : List Nat} (hs : tsSafe l) (rest : List Nat) :
    parseStringRest (l ++ 34 :: rest) = some rest := by
  induction l with
  | nil => rfl
  | cons b l ih =>
    obtain ⟨h32, h34, h92⟩ := hs b (List.mem_cons_self _ _)
    have hl : tsSafe l := fun x hx => hs x (List.mem_cons_of_mem _ hx)
    rw [List.cons_append, parseStringRest.eq_def]
    split
    · simp_all
    · next heq => rw [List.cons.injEq] at heq; exact absurd heq.1 h34
    · next heq => rw [List.cons.injEq] at heq; exact absurd heq.1 h92
    · next b2 r heq =>
      rw [List.cons.injEq] at heq
      obtain ⟨hb, hr⟩ := heq
      subst hb
      rw [if_neg (by omega), ← hr]
      exact ih hl

theorem digitChar_spec {m : Nat} (h : m < 10) :
    48 ≤ (Nat.digitChar m).toNat ∧ (Nat.digitChar m).toNat ≤ 57 ∧
      ((Nat.digitChar m).toNat = 48 → m = 0) := by
  interval_cases m <;> refine ⟨by decide, by decide, by decide⟩

theorem toDigitsCore10_spec (f : Nat) :
    ∀ (n : Nat) (ds : List Char), n < f →
      ∃ pre, Nat.toDigitsCore 10 f n ds = pre ++ ds ∧ pre ≠ [] ∧
        (∀ c ∈ pre, 48 ≤ c.toNat ∧ c.toNat ≤ 57) ∧
        (∀ c, pre.head? = some c → c.toNat = 48 → n = 0) := by
  induction f with
  | zero => intro n ds h; omega
  | succ f ih =>
    intro n ds h
    rw [Nat.toDigitsCore]
    by_cases hz : n / 10 = 0
    · refine ⟨[Nat.digitChar (n % 10)], by simp [hz], by simp, ?_, ?_⟩
      · intro c hc
        simp only [List.mem_singleton] at hc
        subst hc
        exact ⟨(digitChar_spec (Nat.mod_lt n (by omega))).1,
          (digitChar_spec (Nat.mod_lt n (by omega))).2.1⟩
      · intro c hc h48
        simp only [List.head?_cons, Option.some.injEq] at hc
        subst hc
        have := (digitChar_spec (Nat.mod_lt n (by omega))).2.2 h48
        omega
    · have hn : n / 10 < f := by omega
      obtain ⟨pre, hpre, hne, hdig, hhd⟩ := ih (n / 10) (Nat.digitChar (n % 10) :: ds) hn
      refine ⟨pre ++ [Nat.digitChar (n % 10)], ?_, by simp [hne], ?_, ?_⟩
      · simp only [hz, if_false]
        rw [hpre]
        simp
      · intro c hc
        rcases List.mem_append.mp hc with hc | hc
        · exact hdig c hc
        · simp only [List.mem_singleton] at hc
          subst hc
          exact ⟨(digitChar_spec (Nat.mod_lt n (by omega))).1,
            (digitChar_spec (Nat.mod_lt n (by omega))).2.1⟩
      · intro c hc h48
        rw [List.head?_append_of_ne_nil] at hc
        · exact absurd (hhd c hc h48) hz
        · exact hne

theorem decOK_toString (n : Nat) : decOK (strBytes (toString n)) := by
  have key : strBytes (toString n) = (Nat.toDigitsCore 10 (n + 1) n []).map Char.toNat := rfl
  obtain ⟨pre, hpre, hne, hdig, hhd⟩ := toDigitsCore10_spec (n + 1) n [] (by omega)
  rw [key, hpre, List.append_nil]
  refine ⟨by simp [hne], ?_, ?_⟩
  · intro b hb
    rw [List.mem_map] at hb
    obtain ⟨c, hc, hcb⟩ := hb
    rw [← hcb]
    exact hdig c hc
  · intro hhead
    rcases hp : pre with _ | ⟨c0, cs⟩
    · exact absurd hp hne
    · subst hp
      simp only [List.map_cons, List.head?_cons, Option.some.injEq] at hhead
      have hn0 : n = 0 := hhd c0 (by simp) hhead
      subst hn0
      have hcomp : Nat.toDigitsCore 10 (0 + 1) 0 [] = [Char.ofNat 48] := rfl
      rw [hcomp] at hpre
      rw [List.append_nil] at hpre
      rw [List.cons.injEq] at hpre
      rw [← hpre.1, ← hpre.2]
      rfl

theorem dropDigits_all {ds : List Nat} (hds : ∀ x ∈ ds, 48 ≤ x ∧ x ≤ 57)
    {b : Nat} (hb : isDigit b = false) (rest : List Nat) :
    dropDigits (ds ++ b :: rest) = b :: rest := by
  induction ds with
  | nil =>
    simp only [List.nil_append, dropDigits, hb]
    rfl
  | cons d ds ih =>
    have hd := hds d (List.mem_cons_self _ _)
    have hdig : isDigit d = true := by
      simp only [isDigit, Bool.and_eq_true, decide_eq_true_eq]
      omega
    simp only [List.cons_append, dropDigits, hdig]
    exact ih (fun x hx => hds x (List.mem_cons_of_mem _ hx))

theorem parseExpPart_stop {b : Nat} (hb1 : b ≠ 101) (hb2 : b ≠ 69) (rest : List Nat) :
    parseExpPart (b :: rest) = some (b :: rest) := by
  rw [parseExpPart.eq_def]
  simp [hb1, hb2]

theorem parseFracPart_stop {b : Nat} (hb0 : b ≠ 46) (hb1 : b ≠ 101) (hb2 : b ≠ 69)
    (rest : List Nat) : parseFracPart (b :: rest) = some (b :: rest) := by
  rw [parseFracPart.eq_def]
  split
  · next heq => rw [List.cons.injEq] at heq; exact absurd heq.1 hb0
  · exact parseExpPart_stop hb1 hb2 rest

theorem parseNumberRest_dec {l : List Nat} (hl : decOK l) {b : Nat}
    (hb : isDigit b = false) (hb0 : b ≠ 46) (hb1 : b ≠ 101) (hb2 : b ≠ 69)
    (rest : List Nat) : parseNumberRest (l ++ b :: rest) = some (b :: rest) := by
  obtain ⟨hne, hdig, hzero⟩ := hl
  rcases hlc : l with _ | ⟨d0, ds⟩
  · exact absurd hlc hne
  · subst hlc
    have hd0 := hdig d0 (List.mem_cons_self _ _)
    by_cases h48 : d0 = 48
    · have hds : ds = [] := by
        have h1 : d0 :: ds = [48] := hzero (by rw [h48]; rfl)
        rw [List.cons.injEq] at h1
        exact h1.2
      subst h48
      subst hds
      show parseFracPart (b :: rest) = some (b :: rest)
      exact parseFracPart_stop hb0 hb1 hb2 rest
    · show (if d0 = 48 then parseFracPart (ds ++ b :: rest)
          else if isDigit d0 = true then parseFracPart (dropDigits (ds ++ b :: rest))
          else none) = some (b :: rest)
      rw [if_neg h48,
        if_pos (show isDigit d0 = true by
          simp only [isDigit, Bool.and_eq_true, decide_eq_true_eq]; omega)]
      rw [dropDigits_all (fun x hx => hdig x (List.mem_cons_of_mem _ hx)) hb]
      exact parseFracPart_stop hb0 hb1 hb2 rest

theorem parseValue_dec (g : Nat) {l : List Nat} (hl : decOK l) {b : Nat}
    (hb : isDigit b = false) (hb0 : b ≠ 46) (hb1 : b ≠ 101) (hb2 : b ≠ 69)
    (rest : List Nat) : parseValue (g + 1) (l ++ b :: rest) = some (b :: rest) := by
  obtain ⟨hne, hdig, hzero⟩ := hl
  rcases hlc : l with _ | ⟨d0, ds⟩
  · exact absurd hlc hne
  subst hlc
  have hd0 := hdig d0 (List.mem_cons_self _ _)
  have hws : isWS d0 = false := by
    simp only [isWS, Bool.or_eq_false_iff, decide_eq_false_iff_not]
    omega
  rw [List.cons_append, parseValue.eq_def]
  split
  · next heq => omega
  · rw [skipWS_notWS _ hws]
    split
    · next heq => simp at heq
    · next heq => rw [List.cons.injEq] at heq; exact absurd heq.1 (by omega)
    · next heq => rw [List.cons.injEq] at heq; exact absurd heq.1 (by omega)
    · next heq => rw [List.cons.injEq] at heq; exact absurd heq.1 (by omega)
    · next heq => rw [List.cons.injEq] at heq; exact absurd heq.1 (by omega)
    · next heq => rw [List.cons.injEq] at heq; exact absurd heq.1 (by omega)
    · next heq => rw [List.cons.injEq] at heq; exact absurd heq.1 (by omega)
    · next heq => rw [List.cons.injEq] at heq; exact absurd heq.1 (by omega)
    · next b2 r2 heq =>
      rw [List.cons.injEq] at heq
      obtain ⟨hbb, hrr⟩ := heq
      subst hbb
      subst hrr
      rw [if_pos (show isDigit d0 = true by
        simp only [isDigit, Bool.and_eq_true, decide_eq_true_eq]; omega)]
      exact parseNumberRest_dec ⟨hne, hdig, hzero⟩ hb hb0 hb1 hb2 rest

theorem parseValue_string (g : Nat) {ts : List Nat} (hts : tsSafe ts) (rest : List Nat) :
    parseValue (g + 1) (34 :: (ts ++ 34 :: rest)) = some rest :=
  parseStringRest_safe hts rest

theorem marshal_eq (ts : List Nat) (d r : Nat) :
    marshalTruncationMetadata ts d r =
      123 :: (strBytes "\"truncation_event\":true,\"timestamp\":\"" ++
        (ts ++ (34 :: (strBytes ",\"dropped_lines\":" ++
          (strBytes (toString d) ++ (44 :: (strBytes "\"retained_lines\":" ++
            (strBytes (toString r) ++ [125])))))))) := by
  have hB : strBytes "\",\"dropped_lines\":" = 34 :: strBytes ",\"dropped_lines\":" := rfl
  have hD : strBytes ",\"retained_lines\":" = 44 :: strBytes "\"retained_lines\":" := rfl
  rw [marshalTruncationMetadata, hB, hD]
  simp [List.append_assoc]

theorem marshal_parse (f : Nat) (ts : List Nat) (d r : Nat) (hts : tsSafe ts) :
    parseValue (f + 6) (marshalTruncationMetadata ts d r) = some [] := by
  rw [marshal_eq]
  set E : List Nat := strBytes (toString r) ++ [125] with hE
  set D2 : List Nat := strBytes "\"retained_lines\":" ++ E with hD2
  set C2 : List Nat := strBytes (toString d) ++ (44 :: D2) with hC2
  set B2 : List Nat := strBytes ",\"dropped_lines\":" ++ C2 with hB2
  calc parseValue (f + 6)
        (123 :: (strBytes "\"truncation_event\":true,\"timestamp\":\"" ++ (ts ++ (34 :: B2))))
      = memberCont (f + 3) (parseValue ((f + 2) + 1) (34 :: (ts ++ (34 :: B2)))) := rfl
    _ = memberCont (f + 3) (some B2) := by rw [parseValue_string (f + 2) hts]
    _ = memberCont (f + 2) (parseValue ((f + 1) + 1) C2) := rfl
    _ = memberCont (f + 2) (some (44 :: D2)) := by
          rw [hC2, parseValue_dec (f + 1) (decOK_toString d) (by decide) (by decide)
            (by decide) (by decide)]
    _ = memberCont (f + 1) (parseValue (f + 1) E) := rfl
    _ = memberCont (f + 1) (some [125]) := by
          rw [hE, parseValue_dec f (decOK_toString r) (by decide) (by decide)
            (by decide) (by decide)]
    _ = some [] := rfl

theorem marshal_isValidJSON (ts : List Nat) (d r : Nat) (hts : tsSafe ts) :
    isValidJSON (marshalTruncationMetadata ts d r) = true := by
  have hlen : 4 ≤ (marshalTruncationMetadata ts d r).length := by
    rw [marshal_eq]
    have h37 : (strBytes "\"truncation_event\":true,\"timestamp\":\"").length = 37 := by decide
    simp only [List.length_cons, List.length_append, h37]
    omega
  obtain ⟨f, hf⟩ : ∃ f, (marshalTruncationMetadata ts d r).length + 2 = f + 6 :=
    ⟨(marshalTruncationMetadata ts d r).length - 4, by omega⟩
  unfold isValidJSON
  rw [hf, marshal_parse f ts d r hts]
  rfl

theorem marshal_noNL (ts : List Nat) (d r : Nat) (hts : tsSafe ts) :
    (10 : Nat) ∉ marshalTruncationMetadata ts d r := by
  rw [marshal_eq]
  intro hmem
  obtain ⟨-, hdigD, -⟩ := decOK_toString d
  obtain ⟨-, hdigR, -⟩ := decOK_toString r
  simp only [List.mem_cons, List.mem_append] at hmem
  rcases hmem with h | h
  · omega
  rcases h with h | h
  · exact absurd h (by decide)
  rcases h with h | h
  · have := hts 10 h
    omega
  rcases h with h | h
  · omega
  rcases h with h | h
  · exact absurd h (by decide)
  rcases h with h | h
  · have := hdigD 10 h
    omega
  rcases h with h | h
  · omega
  rcases h with h | h
  · exact absurd h (by decide)
  rcases h with h | h
  · have := hdigR 10 h
    omega
  · simp at h

theorem truncateByLine_main2 (b : BufferManager) (ts : List Nat)
    (hlines : 1 < (splitB b.buffer).length) (hvalid : validLinesOf b ≠ []) :
    b.truncateByLine ts =
      { b with
          buffer := joinLines
            (if b.config.AddTruncationMeta && decide (0 < droppedOf b) then
              marshalTruncationMetadata ts (droppedOf b) (retainedOf b).length :: retainedOf b
            else retainedOf b)
          currentSize := (joinLines
            (if b.config.AddTruncationMeta && decide (0 < droppedOf b) then
              marshalTruncationMetadata ts (droppedOf b) (retainedOf b).length :: retainedOf b
            else retainedOf b)).length } := by
  have hne : ¬ b.buffer.length = 0 := by
    intro h
    rw [List.length_eq_zero] at h
    rw [h] at hlines
    simp [splitB] at hlines
  have h2 : ¬ (splitB b.buffer).length ≤ 1 := by omega
  have h3 : ¬ (validLinesOf b).length = 0 := by
    simpa [List.length_eq_zero] using hvalid
  unfold BufferManager.truncateByLine
  rw [if_neg hne, if_neg h2, if_neg h3]

theorem truncate_valid_ts (b : BufferManager) (ts : List Nat) (hts : tsSafe ts) :
    ∃ ls, (b.truncateByLine ts).buffer = joinLines ls ∧
      ∀ l ∈ ls, (10 : Nat) ∉ l ∧ isValidJSON l = true := by
  rcases truncateByLine_buffer_cases b ts with h | ⟨hlines, hvalid⟩
  · exact ⟨[], by simpa [joinLines] using h, by simp⟩
  · rw [truncateByLine_main2 b ts hlines hvalid]
    refine ⟨_, rfl, ?_⟩
    intro l hl
    split at hl
    · rcases List.mem_cons.mp hl with hl | hl
      · subst hl
        exact ⟨marshal_noNL ts _ _ hts, marshal_isValidJSON ts _ _ hts⟩
      · have hv := validLinesOf_spec (mem_retainedOf hl)
        exact ⟨noNL_of_mem_splitB hv.1, hv.2.2⟩
    · have hv := validLinesOf_spec (mem_retainedOf hl)
      exact ⟨noNL_of_mem_splitB hv.1, hv.2.2⟩

theorem AddRecord_ValidInv (b : BufferManager) (record ts : List Nat)
    (hjson : isValidJSON record = true) (hnl : (10 : Nat) ∉ record)
    (hts : tsSafe ts)
    (h : ValidInv b) : ValidInv (b.AddRecord record ts) := by
  obtain ⟨ls, hrep, hls⟩ := h
  have key : ∃ ls1,
      (if b.config.MaxBufferSizeBytes < b.buffer.length + record.length + 1 then
          b.truncateByLine ts else b).buffer = joinLines ls1 ∧
        ∀ l ∈ ls1, (10 : Nat) ∉ l ∧ isValidJSON l = true := by
    split
    · exact truncate_valid_ts b ts hts
    · exact ⟨ls, hrep, hls⟩
  obtain ⟨ls1, he1, hls1⟩ := key
  unfold BufferManager.AddRecord
  refine ⟨ls1 ++ [record], ?_, ?_⟩
  · show (if b.config.MaxBufferSizeBytes < b.buffer.length + record.length + 1 then
        b.truncateByLine ts else b).buffer ++ record ++ [10] =
      joinLines (ls1 ++ [record])
    rw [joinLines_append, he1, List.append_assoc]
    rfl
  · intro l hl
    rcases List.mem_append.mp hl with hl | hl
    · exact hls1 l hl
    · simp only [List.mem_singleton] at hl
      subst hl
      exact ⟨hnl, hjson⟩

theorem applyOp_ValidInv (b : BufferManager) (op : BufOp)
    (hop : opRecordOK op)
    (h : ValidInv b) : ValidInv (applyOp b op) := by
  cases op with
  | addRecord record ts =>
    obtain ⟨h1, h2, h3⟩ := hop
    exact AddRecord_ValidInv b record ts h1 h2 h3 h
  | flushOp =>
    rw [applyOp, FlushOp_fst]
    exact h
  | resetOp =>
    exact ⟨[], rfl, by simp⟩

theorem applyOps_ValidInv (ops : List BufOp) :
    ∀ b : BufferManager, (∀ op ∈ ops, opRecordOK op) →
      ValidInv b → ValidInv (applyOps b ops) := by
  induction ops with
  | nil => intro b _ h; exact h
  | cons op ops ih =>
    intro b hops h
    show ValidInv (applyOps (applyOp b op) ops)
    refine ih (applyOp b op) ?_ ?_
    · intro o ho; exact hops o (List.mem_cons_of_mem _ ho)
    · exact applyOp_ValidInv b op (hops op (List.mem_cons_self _ _)) h

theorem runAddRecords_SizeInv (rs : List (List Nat × List Nat)) :
    ∀ b : BufferManager, b.config.AddTruncationMeta = false →
      (∀ p ∈ rs, p.1.length + 1 ≤ b.config.MaxBufferSizeBytes / 2) →
      SizeInv b → SizeInv (runAddRecords b rs) := by
  induction rs with
  | nil => intro b _ _ h; exact h
  | cons p rs ih =>
    intro b hmeta hrs h
    show SizeInv (runAddRecords (b.AddRecord p.1 p.2) rs)
    refine ih (b.AddRecord p.1 p.2) ?_ ?_ ?_
    · rw [AddRecord_config]; exact hmeta
    · intro q hq
      rw [AddRecord_config]
      exact hrs q (List.mem_cons_of_mem _ hq)
    · exact AddRecord_SizeInv b p.1 p.2 hmeta (hrs p (List.mem_cons_self _ _)) h

theorem AddRecord_buffer (b : BufferManager) (record ts : List Nat) :
    (b.AddRecord record ts).buffer =
      (if b.config.MaxBufferSizeBytes < b.buffer.length + record.length + 1 then
        b.truncateByLine ts else b).buffer ++ record ++ [10] := rfl

/-- C1 (amended): for any sequence of `AddRecord` calls starting from a
fresh manager with truncation metadata disabled, if every record fits in
half the (defaulted) ceiling counting its delimiter, then after every call
`currentSize` is at most `MaxBufferSizeBytes`. (Every prefix of `rs` is
itself such a sequence, so this bounds the size after each call.) -/
theorem C1_size_bound (cfg : BufferConfig) (rs : List (List Nat × List Nat))
    (hmeta : cfg.AddTruncationMeta = false)
    (hrec : ∀ p ∈ rs, p.1.length + 1 ≤ (NewBufferManager cfg).config.MaxBufferSizeBytes / 2) :
    (runAddRecords (NewBufferManager cfg) rs).currentSize ≤
      (NewBufferManager cfg).config.MaxBufferSizeBytes := by
  have h0 : SizeInv (NewBufferManager cfg) := by
    refine ⟨?_, ?_, ⟨[], ?_, by simp⟩⟩
    · rw [NewBufferManager_currentSize, NewBufferManager_buffer]
      rfl
    · rw [NewBufferManager_buffer]
      simp
    · rw [NewBufferManager_buffer]
      rfl
  have h := runAddRecords_SizeInv rs (NewBufferManager cfg)
    (by rw [NewBufferManager_meta]; exact hmeta) hrec h0
  obtain ⟨hcur, hlen, _⟩ := h
  rw [hcur]
  calc (runAddRecords (NewBufferManager cfg) rs).buffer.length
      ≤ (runAddRecords (NewBufferManager cfg) rs).config.MaxBufferSizeBytes := hlen
    _ = (NewBufferManager cfg).config.MaxBufferSizeBytes := by rw [runAddRecords_config]

/-- C1 counterexample: with a 4-byte ceiling, adding `{}` twice leaves
`currentSize = 6 > 4` — the at-least-one-line retention keeps the whole
previous line, so the in-flight append does not land within the ceiling. -/
theorem C1_counterexample :
    ¬ (runAddRecords (NewBufferManager cfg4)
        [([123, 125], []), ([123, 125], [])]).currentSize ≤
      (NewBufferManager cfg4).config.MaxBufferSizeBytes := by decide

/-- C1 witness: three `{}` records under an 8-byte ceiling satisfy the
amended hypotheses and stay within the ceiling. -/
theorem C1_witness :
    (runAddRecords (NewBufferManager cfg8)
      [([123, 125], []), ([123, 125], []), ([123, 125], [])]).currentSize ≤
      (NewBufferManager cfg8).config.MaxBufferSizeBytes :=
  C1_size_bound cfg8 _ (by decide) (by decide)

/-- C2 (amended): for every buffer state reachable through the public API
from a fresh manager (truncation metadata enabled or not), if every added
record is itself valid JSON with no embedded newline byte (the truncation
timestamps being RFC 3339 shaped, as `time.Now().Format` always produces),
then every newline-delimited non-empty line of the buffer content parses
as valid JSON: the metadata line, when prepended, is `json.Marshal` output
and itself valid JSON. (Unrestricted records falsify the claim:
`AddRecord` performs no validation, see the counterexample.) -/
theorem C2_lines_valid (cfg : BufferConfig) (ops : List BufOp)
    (hops : ∀ op ∈ ops, opRecordOK op) :
    ∀ line ∈ splitB (applyOps (NewBufferManager cfg) ops).buffer,
      line ≠ [] → isValidJSON line = true := by
  have h0 : ValidInv (NewBufferManager cfg) := by
    refine ⟨[], ?_, by simp⟩
    rw [NewBufferManager_buffer]
    rfl
  have h := applyOps_ValidInv ops (NewBufferManager cfg) hops h0
  obtain ⟨ls, hrep, hls⟩ := h
  intro line hline hne
  rw [hrep, splitB_joinLines ls (fun x hx => (hls x hx).1)] at hline
  rcases List.mem_append.mp hline with hl | hl
  · exact (hls line hl).2
  · simp at hl
    exact absurd hl hne

/-- C2 counterexample: adding the record `x` (not JSON) puts the non-JSON
line `x` into a reachable buffer state — `AddRecord` validates nothing. -/
theorem C2_counterexample :
    ¬ ∀ line ∈ splitB (applyOps (NewBufferManager cfg1024)
        [.addRecord [120] []]).buffer,
      line ≠ [] → isValidJSON line = true := by decide

/-- C2 witness: after a concrete add / flush / add / reset / add sequence
of valid JSON records, the buffer is `2\n` and its line `2` is valid JSON
by the amended theorem. -/
theorem C2_witness :
    (applyOps (NewBufferManager cfg1024)
        [.addRecord [123, 125] [], .flushOp, .addRecord [49] [],
         .resetOp, .addRecord [50] []]).buffer = [50, 10] ∧
      isValidJSON [50] = true :=
  ⟨by decide,
    C2_lines_valid cfg1024
      [.addRecord [123, 125] [], .flushOp, .addRecord [49] [],
       .resetOp, .addRecord [50] []] (by decide) [50] (by decide) (by decide)⟩

/-- C10 (confirmed): after any sequence of public operations on a fresh
manager, the buffer is empty or ends with a newline byte — the payload is
always a concatenation of newline-terminated lines. -/
theorem C10_trailing_newline (cfg : BufferConfig) (ops : List BufOp) :
    (applyOps (NewBufferManager cfg) ops).buffer = [] ∨
      (applyOps (NewBufferManager cfg) ops).buffer.getLast? = some 10 := by
  have key : ∀ (ops : List BufOp) (b : BufferManager),
      b.buffer = [] ∨ b.buffer.getLast? = some 10 →
      (applyOps b ops).buffer = [] ∨ (applyOps b ops).buffer.getLast? = some 10 := by
    intro ops
    induction ops with
    | nil => intro b h; exact h
    | cons op ops ih =>
      intro b h
      show (applyOps (applyOp b op) ops).buffer = [] ∨
        (applyOps (applyOp b op) ops).buffer.getLast? = some 10
      apply ih
      cases op with
      | addRecord record ts =>
        right
        rw [show applyOp b (.addRecord record ts) = b.AddRecord record ts from rfl,
          AddRecord_buffer]
        exact List.getLast?_concat _
      | flushOp =>
        rw [applyOp, FlushOp_fst]
        exact h
      | resetOp =>
        left
        rfl
  exact key ops (NewBufferManager cfg) (Or.inl (NewBufferManager_buffer cfg))

/-- C3 (amended): a truncation on a line-terminated buffer with at least one
valid JSON line (metadata disabled) rebuilds the buffer from `retainedOf b`,
which is an order-preserving subsequence of the valid lines (oldest first
among survivors, selected greedily newest-to-oldest — not necessarily a
contiguous suffix), retains at least one line, and has cumulative size
(line + 1 delimiter byte each) at most `MaxBufferSizeBytes / 2` unless
exactly one line is retained (a single oversized newest line may exceed the
half-ceiling budget). -/
theorem C3_truncation_retention (b : BufferManager) (ts : List Nat)
    (hmeta : b.config.AddTruncationMeta = false)
    (hlines : 1 < (splitB b.buffer).length) (hvalid : validLinesOf b ≠ []) :
    (b.truncateByLine ts).buffer = joinLines (retainedOf b) ∧
      List.Sublist (retainedOf b) (validLinesOf b) ∧
      retainedOf b ≠ [] ∧
      (linesSize (retainedOf b) ≤ b.config.MaxBufferSizeBytes / 2 ∨
        (retainedOf b).length = 1) := by
  refine ⟨?_, retainedOf_sublist b, retainedOf_ne_nil b hvalid, retainedOf_size_or_one b⟩
  rw [truncateByLine_main b ts hmeta hlines hvalid]

/-- C3 counterexample: truncating `1\n12345678\n22\n` under a 20-byte
ceiling (target 10) retains `1` and `22` but skips the middle line — the
retained lines are not a suffix of the remaining valid lines. -/
theorem C3_counterexample :
    (bLines3.truncateByLine []).buffer = strBytes "1\n22\n" ∧
      ¬ List.IsSuffix ((splitB (bLines3.truncateByLine []).buffer).dropLast)
          (validLinesOf bLines3) := by
  constructor
  · decide
  · decide

/-- C3 witness: truncating `5\n6\n` under a 20-byte ceiling satisfies the
amended hypotheses and retains both lines in order. -/
theorem C3_witness :
    (bLines2.truncateByLine []).buffer = joinLines (retainedOf bLines2) ∧
      List.Sublist (retainedOf bLines2) (validLinesOf bLines2) ∧
      retainedOf bLines2 ≠ [] ∧
      (linesSize (retainedOf bLines2) ≤ bLines2.config.MaxBufferSizeBytes / 2 ∨
        (retainedOf bLines2).length = 1) :=
  C3_truncation_retention bLines2 [] rfl (by decide) (by decide)

/-- C4 (confirmed; truncation metadata disabled): truncation keeps only
lines that pass the JSON filter, so no malformed line survives it, and if
no valid JSON line exists the buffer becomes empty. -/
theorem C4_truncation_filters (b : BufferManager) (ts : List Nat)
    (hmeta : b.config.AddTruncationMeta = false) :
    (∀ line ∈ splitB (b.truncateByLine ts).buffer, line ≠ [] → isValidJSON line = true) ∧
      (validLinesOf b = [] → (b.truncateByLine ts).buffer = []) := by
  constructor
  · obtain ⟨ls, he, hls⟩ := truncate_valid b ts hmeta
    intro line hl hne
    rw [he, splitB_joinLines ls (fun x hx => (hls x hx).1)] at hl
    rcases List.mem_append.mp hl with hl | hl
    · exact (hls line hl).2
    · simp at hl
      exact absurd hl hne
  · intro hv
    rcases truncateByLine_buffer_cases b ts with h | ⟨_, hvalid⟩
    · exact h
    · exact absurd hv hvalid

/-- C4 witness: scenario B — seeding `{"a":1}\n{"b":2\n{"c":3}\n` (middle
line malformed) and truncating keeps exactly the two valid lines; the first
surviving line is certified valid via the theorem. -/
theorem C4_witness :
    isValidJSON (strBytes "\x7b\"a\":1\x7d") = true ∧
      (bSeeded.truncateByLine []).buffer = strBytes "\x7b\"a\":1\x7d\n\x7b\"c\":3\x7d\n" :=
  ⟨(C4_truncation_filters bSeeded [] rfl).1 (strBytes "\x7b\"a\":1\x7d")
      (by decide) (by decide), by decide⟩

/-- C6 (confirmed): when `retryCount` exceeds `maxRetryCount` at the start
of a flush attempt, the orchestrator resets the buffer, clears the retry
state, fires the max-retries-reached metric event, performs no storage
write, and returns success (code 0, no error). -/
theorem C6_max_retries (p : PluginContext) (fk : List Nat) (we : Option GoError)
    (h : p.retryManager.maxRetryCount < p.retryManager.retryCount) :
    (p.Flush fk we).ctx.bufferManager.buffer = [] ∧
      (p.Flush fk we).ctx.bufferManager.currentSize = 0 ∧
      (p.Flush fk we).ctx.retryManager.retryCount = 0 ∧
      (p.Flush fk we).ctx.retryManager.objectKey = [] ∧
      (p.Flush fk we).ctx.retryManager.isRetrying = false ∧
      (p.Flush fk we).ctx.events = p.events ++ [MetricEvent.maxRetriesReached] ∧
      (p.Flush fk we).wroteKey = none ∧
      (p.Flush fk we).code = 0 ∧
      (p.Flush fk we).err = none := by
  unfold PluginContext.Flush
  rw [if_pos h]
  exact ⟨rfl, rfl, rfl, rfl, rfl, rfl, rfl, rfl, rfl⟩

/-- C6 witness: a context with `retryCount = 4 > maxRetryCount = 3`
discards its buffer, clears retry state, fires the metric, writes nothing
and reports success. -/
theorem C6_witness :
    (pExhausted.Flush (strBytes "logs/fresh.log.gz") none).ctx.bufferManager.buffer = [] ∧
      (pExhausted.Flush (strBytes "logs/fresh.log.gz") none).ctx.bufferManager.currentSize = 0 ∧
      (pExhausted.Flush (strBytes "logs/fresh.log.gz") none).ctx.retryManager.retryCount = 0 ∧
      (pExhausted.Flush (strBytes "logs/fresh.log.gz") none).ctx.retryManager.objectKey = [] ∧
      (pExhausted.Flush (strBytes "logs/fresh.log.gz") none).ctx.retryManager.isRetrying = false ∧
      (pExhausted.Flush (strBytes "logs/fresh.log.gz") none).ctx.events =
        pExhausted.events ++ [MetricEvent.maxRetriesReached] ∧
      (pExhausted.Flush (strBytes "logs/fresh.log.gz") none).wroteKey = none ∧
      (pExhausted.Flush (strBytes "logs/fresh.log.gz") none).code = 0 ∧
      (pExhausted.Flush (strBytes "logs/fresh.log.gz") none).err = none :=
  C6_max_retries pExhausted (strBytes "logs/fresh.log.gz") none (by decide)

/-- C9 (confirmed): while `isRetrying` is true, `ProcessRecord` drops the
incoming record: the context (buffer content and size included) is
unchanged and the call returns no error. -/
theorem C9_drop_while_retrying (p : PluginContext) (record ts : List Nat)
    (h : p.retryManager.isRetrying = true) :
    p.ProcessRecord record ts = (p, none) := by
  unfold PluginContext.ProcessRecord
  rw [if_pos h]

/-- C9 witness: a retrying context drops a concrete record unchanged. -/
theorem C9_witness : pRetrying.ProcessRecord [49] [] = (pRetrying, none) :=
  C9_drop_while_retrying pRetrying [49] [] rfl

theorem FlushOp_snd_of_ne_nil {b : BufferManager} (hbuf : b.buffer ≠ []) :
    (b.FlushOp).2 = some b.buffer := by
  unfold BufferManager.FlushOp
  rw [if_neg (by simpa [List.length_eq_zero] using hbuf)]

/-- C8 (confirmed): a non-retryable (permission / auth / credential class)
storage error makes the orchestrator reset the buffer on that very failure,
clear the retry state, surface the error (code -1), and attempt no retry
(`isRetrying` is false and the count is 0 afterwards). -/
theorem C8_fatal_error (p : PluginContext) (fk : List Nat) (e : GoError)
    (hmax : ¬ p.retryManager.maxRetryCount < p.retryManager.retryCount)
    (hbuf : p.bufferManager.buffer ≠ [])
    (hfatal : isRetryableError e = false) :
    (p.Flush fk (some e)).ctx.bufferManager.buffer = [] ∧
      (p.Flush fk (some e)).ctx.bufferManager.currentSize = 0 ∧
      (p.Flush fk (some e)).ctx.retryManager.retryCount = 0 ∧
      (p.Flush fk (some e)).ctx.retryManager.objectKey = [] ∧
      (p.Flush fk (some e)).ctx.retryManager.isRetrying = false ∧
      (p.Flush fk (some e)).code = -1 ∧
      (p.Flush fk (some e)).err = some e := by
  have hsr : ∀ r : RetryManager, RetryManager.ShouldRetry r (some e) = false := by
    intro r
    show (if r.maxRetryCount ≤ r.retryCount then false else isRetryableError e) = false
    split
    · rfl
    · exact hfatal
  unfold PluginContext.Flush
  rw [if_neg hmax]
  simp only [FlushOp_snd_of_ne_nil hbuf, hsr, Bool.false_eq_true, if_false]
  split <;> simp [BufferManager.Reset, RetryManager.ResetRetry]

/-- C8 witness: an idle context hit by a `permission denied` error on its
very first failure resets the buffer, clears retry state, surfaces the
error, and is not retrying afterwards. -/
theorem C8_witness :
    (pIdle.Flush (strBytes "logs/k3.log.gz") (some permErr)).ctx.bufferManager.buffer = [] ∧
      (pIdle.Flush (strBytes "logs/k3.log.gz") (some permErr)).ctx.bufferManager.currentSize = 0 ∧
      (pIdle.Flush (strBytes "logs/k3.log.gz") (some permErr)).ctx.retryManager.retryCount = 0 ∧
      (pIdle.Flush (strBytes "logs/k3.log.gz") (some permErr)).ctx.retryManager.objectKey = [] ∧
      (pIdle.Flush (strBytes "logs/k3.log.gz") (some permErr)).ctx.retryManager.isRetrying = false ∧
      (pIdle.Flush (strBytes "logs/k3.log.gz") (some permErr)).code = -1 ∧
      (pIdle.Flush (strBytes "logs/k3.log.gz") (some permErr)).err = some permErr :=
  C8_fatal_error pIdle (strBytes "logs/k3.log.gz") permErr (by decide) (by decide) (by decide)

/-- C7 (confirmed): a flush attempt failing with a retryable storage error
leaves the buffer manager (content and `currentSize`) unchanged, increments
the retry count, raises the retry flag, uses exactly the object key it
saved (the key passed to `Write` is the key stored for the retry), and
reports the failure; moreover `BufferManager.Flush` itself returns the
state unmutated. -/
theorem C7_retryable_failure (p : PluginContext) (fk : List Nat) (e : GoError)
    (hcnt : p.retryManager.retryCount < p.retryManager.maxRetryCount)
    (hbuf : p.bufferManager.buffer ≠ [])
    (hretry : isRetryableError e = true) :
    (p.Flush fk (some e)).ctx.bufferManager = p.bufferManager ∧
      (p.Flush fk (some e)).ctx.retryManager.retryCount = p.retryManager.retryCount + 1 ∧
      (p.Flush fk (some e)).ctx.retryManager.isRetrying = true ∧
      (p.Flush fk (some e)).wroteKey = some (p.Flush fk (some e)).ctx.retryManager.objectKey ∧
      (p.Flush fk (some e)).code = -1 ∧
      (p.Flush fk (some e)).err = some e ∧
      (p.bufferManager.FlushOp).1 = p.bufferManager := by
  have hmax : ¬ p.retryManager.maxRetryCount < p.retryManager.retryCount := by omega
  have hsr : ∀ r : RetryManager, r.retryCount = p.retryManager.retryCount →
      r.maxRetryCount = p.retryManager.maxRetryCount →
      RetryManager.ShouldRetry r (some e) = true := by
    intro r h1 h2
    show (if r.maxRetryCount ≤ r.retryCount then false else isRetryableError e) = true
    rw [if_neg (by omega)]
    exact hretry
  unfold PluginContext.Flush
  rw [if_neg hmax]
  simp only [FlushOp_snd_of_ne_nil hbuf]
  cases hreuse : (p.retryManager.isRetrying && !p.retryManager.GetRetryObjectKey.isEmpty) with
  | false =>
    have hsr2 : RetryManager.ShouldRetry (p.retryManager.SetRetryObjectKey fk) (some e) = true :=
      hsr _ rfl rfl
    simp only [hreuse, Bool.false_eq_true, if_false, hsr2, if_true]
    simp [FlushOp_fst, RetryManager.SetRetryObjectKey, RetryManager.IncrementRetryCount,
      RetryManager.GetRetryObjectKey]
  | true =>
    have hsr2 : RetryManager.ShouldRetry p.retryManager (some e) = true := hsr _ rfl rfl
    simp only [hreuse, if_true, hsr2]
    simp [FlushOp_fst, RetryManager.SetRetryObjectKey, RetryManager.IncrementRetryCount,
      RetryManager.GetRetryObjectKey]

/-- C7 witness: an idle context with data, hit by a 503-class error, keeps
its buffer intact, moves to retry count 1, and the written key equals the
saved key. -/
theorem C7_witness :
    (pIdle.Flush (strBytes "logs/k4.log.gz") (some err503)).ctx.bufferManager =
        pIdle.bufferManager ∧
      (pIdle.Flush (strBytes "logs/k4.log.gz") (some err503)).ctx.retryManager.retryCount =
        pIdle.retryManager.retryCount + 1 ∧
      (pIdle.Flush (strBytes "logs/k4.log.gz") (some err503)).ctx.retryManager.isRetrying = true ∧
      (pIdle.Flush (strBytes "logs/k4.log.gz") (some err503)).wroteKey =
        some (pIdle.Flush (strBytes "logs/k4.log.gz") (some err503)).ctx.retryManager.objectKey ∧
      (pIdle.Flush (strBytes "logs/k4.log.gz") (some err503)).code = -1 ∧
      (pIdle.Flush (strBytes "logs/k4.log.gz") (some err503)).err = some err503 ∧
      (pIdle.bufferManager.FlushOp).1 = pIdle.bufferManager :=
  C7_retryable_failure pIdle (strBytes "logs/k4.log.gz") err503 (by decide) (by decide) (by decide)

theorem Flush_key_step (p : PluginContext) (fk : List Nat) (we : Option GoError)
    (h1 : p.retryManager.isRetrying = true) (h2 : p.retryManager.objectKey ≠ []) :
    ((p.Flush fk we).wroteKey = none ∨
        (p.Flush fk we).wroteKey = some p.retryManager.objectKey) ∧
      ((p.Flush fk we).ctx.retryManager.isRetrying = true →
        (p.Flush fk we).ctx.retryManager.objectKey = p.retryManager.objectKey) := by
  have hreuse : (p.retryManager.isRetrying && !p.retryManager.GetRetryObjectKey.isEmpty) = true := by
    simp [RetryManager.GetRetryObjectKey, h1, List.isEmpty_iff, h2]
  unfold PluginContext.Flush
  split
  · refine ⟨Or.inl rfl, fun hcontra => ?_⟩
    exact absurd hcontra (by simp [RetryManager.ResetRetry])
  · rcases hfo : (p.bufferManager.FlushOp).2 with _ | data
    · simp only [hfo]
      exact ⟨Or.inl trivial, fun _ => trivial⟩
    · simp only [hfo, hreuse, if_true]
      cases we with
      | none =>
        refine ⟨Or.inr rfl, fun hcontra => ?_⟩
        exact absurd hcontra (by simp [RetryManager.ResetRetry])
      | some e =>
        by_cases hsr : RetryManager.ShouldRetry p.retryManager (some e) = true
        · simp only [hsr, if_true]
          exact ⟨Or.inr rfl, fun _ => rfl⟩
        · simp only [Bool.not_eq_true] at hsr
          simp only [hsr, Bool.false_eq_true, if_false]
          refine ⟨Or.inr rfl, fun hcontra => ?_⟩
          exact absurd hcontra (by simp [RetryManager.ResetRetry])

/-- C5 (confirmed): starting inside a retry cycle (`isRetrying` set, a
non-empty saved key — `generateObjectKey` never returns an empty key), every
`GetRetryObjectKey()` observation until the cycle ends equals the saved
key, and every object key passed to `storageClient.Write` during the cycle
is that same key. -/
theorem C5_key_stability (p : PluginContext) (ins : List FlushInput)
    (h1 : p.retryManager.isRetrying = true) (h2 : p.retryManager.objectKey ≠ []) :
    (∀ wk ∈ cycleWrites p ins, wk = none ∨ wk = some p.retryManager.objectKey) ∧
      (∀ k ∈ cycleKeys p ins, k = p.retryManager.objectKey) := by
  induction ins generalizing p with
  | nil => exact ⟨by simp [cycleWrites], by simp [cycleKeys]⟩
  | cons i rest ih =>
    obtain ⟨hw, hk⟩ := Flush_key_step p i.freshKey i.writeErr h1 h2
    by_cases hret : (p.Flush i.freshKey i.writeErr).ctx.retryManager.isRetrying = true
    · have hkey := hk hret
      have hkey2 : (p.Flush i.freshKey i.writeErr).ctx.retryManager.objectKey ≠ [] := by
        rw [hkey]
        exact h2
      obtain ⟨ihw, ihk⟩ := ih (p.Flush i.freshKey i.writeErr).ctx hret hkey2
      constructor
      · intro wk hwk
        simp only [cycleWrites, hret, if_true] at hwk
        rcases List.mem_cons.mp hwk with hwk | hwk
        · subst hwk
          exact hw
        · rcases ihw wk hwk with h | h
          · exact Or.inl h
          · right
            rw [h, hkey]
      · intro k hkk
        simp only [cycleKeys, hret, if_true] at hkk
        rcases List.mem_cons.mp hkk with hkk | hkk
        · rw [hkk]
          exact hkey
        · rw [ihk k hkk, hkey]
    · have hret2 : (p.Flush i.freshKey i.writeErr).ctx.retryManager.isRetrying = false := by
        cases hx : (p.Flush i.freshKey i.writeErr).ctx.retryManager.isRetrying
        · rfl
        · exact absurd hx hret
      constructor
      · intro wk hwk
        simp only [cycleWrites, hret2, Bool.false_eq_true, if_false, List.mem_singleton] at hwk
        subst hwk
        exact hw
      · intro k hkk
        simp only [cycleKeys, hret2, Bool.false_eq_true, if_false, List.not_mem_nil] at hkk

/-- C5 witness: two 503 failures then a success within one cycle — all
three `Write` calls use the pinned key `logs/k1.log.gz`, certified via the
theorem at the first written key. -/
theorem C5_witness :
    (some (strBytes "logs/k1.log.gz") = (none : Option (List Nat)) ∨
        some (strBytes "logs/k1.log.gz") = some pRetrying.retryManager.objectKey) ∧
      cycleWrites pRetrying
          [⟨strBytes "logs/f1.log.gz", some err503⟩,
           ⟨strBytes "logs/f2.log.gz", some err503⟩,
           ⟨strBytes "logs/f3.log.gz", none⟩] =
        [some (strBytes "logs/k1.log.gz"), some (strBytes "logs/k1.log.gz"),
         some (strBytes "logs/k1.log.gz")] :=
  ⟨(C5_key_stability pRetrying
      [⟨strBytes "logs/f1.log.gz", some err503⟩,
       ⟨strBytes "logs/f2.log.gz", some err503⟩,
       ⟨strBytes "logs/f3.log.gz", none⟩] rfl (by decide)).1
      (some (strBytes "logs/k1.log.gz")) (by decide), by decide⟩

example : isValidJSON (strBytes "\x7b\"a\":1\x7d") = true := by decide
example : isValidJSON (strBytes "\x7b\"b\":2") = false := by decide
example : isValidJSON (strBytes "1") = true := by decide
example : isValidJSON (strBytes "12345678") = true := by decide
example : isValidJSON (strBytes "x") = false := by decide
example : isValidJSON (strBytes "[1, \x7b\"k\": null\x7d, -2.5e+3]") = true := by decide
example : isValidJSON (strBytes "01") = false := by decide
example : isValidJSON (strBytes "") = false := by decide
example : splitB (strBytes "a\nbc\n") = [[97], [98, 99], []] := by decide
example : splitB (strBytes "abc") = [[97, 98, 99]] := by decide
example : containsSeq (strBytes "permission denied") (strBytes "permission") = true := by decide
example : containsSeq (strBytes "som auth x") (strBytes "auth") = true := by decide
example : containsSeq (strBytes "connection reset") (strBytes "auth") = false := by decide
